import Mathlib

/-!
Verification of the transcript-parsing scripts.

Texts are modelled as `List Char`.  Python string primitives used by the
scripts (`strip`, `rstrip`, `replace`, `split(": ", 1)`, the `HEADER` regex
and `finditer`) are embedded as executable Lean functions below.  Python's
`\s` and `\d` character classes are modelled on their ASCII range, which is
the range exercised by the transcript format.
-/

/-- Python's whitespace class `\s` (ASCII range): space, tab, newline,
carriage return, vertical tab, form feed. -/
def isPySpace (c : Char) : Bool :=
  c == ' ' || c == '\t' || c == '\n' || c == '\r' || c == '\x0b' || c == '\x0c'

/-- Python `str.lstrip()` (no argument): drop leading whitespace. -/
def lstrip (l : List Char) : List Char :=
  l.dropWhile isPySpace

/-- Python `str.rstrip()` (no argument): drop trailing whitespace. -/
def rstrip (l : List Char) : List Char :=
  (l.reverse.dropWhile isPySpace).reverse

/-- Python `str.strip()` (no argument): drop leading and trailing whitespace. -/
def strip (l : List Char) : List Char :=
  rstrip (lstrip l)

/-- Python `full.rstrip("\n")` from `parse_chat` line 91: drop every trailing
newline character. -/
def rstripNl (l : List Char) : List Char :=
  (l.reverse.dropWhile (fun c => c == '\n')).reverse

/-- Python `full.replace("\r\n", "\n")` from `parse_chat` line 88: each
occurrence of the two-character sequence CR LF becomes one LF, scanning left
to right. -/
def replaceCrlf : List Char → List Char
  | '\r' :: '\n' :: rest => '\n' :: replaceCrlf rest
  | c :: rest => c :: replaceCrlf rest
  | [] => []

/-- Python `.replace("\r", "\n")` from `parse_chat` line 88: every remaining
CR becomes LF. -/
def replaceCr (l : List Char) : List Char :=
  l.map fun c => if c == '\r' then '\n' else c

/-- Line 88 of `conversation_to_context_v2.py`: normalize Windows/Mac line
endings, first CRLF then lone CR. -/
def normalizeNewlines (l : List Char) : List Char :=
  replaceCr (replaceCrlf l)

/-- Python `rest.split(": ", 1)` combined with the `": " in rest` test from
`split_sender_and_text`: locate the first occurrence of colon-space; return
`some (before, after)` when it occurs, `none` when it does not. -/
def splitOnColonSpace : List Char → Option (List Char × List Char)
  | [] => none
  | c :: rest =>
    if c = ':' ∧ rest.head? = some ' ' then some ([], rest.tail)
    else (splitOnColonSpace rest).map fun p => (c :: p.1, p.2)

/-- Lines 45-59 of `conversation_to_context_v2.py` (`split_sender_and_text`):
split the combined header-remainder-plus-body text on the first ": ".
If there is none, the whole text is a system message with absent sender.
If both halves are whitespace-blank the block degenerates to `(none, "")`.
Otherwise the sender is the trimmed left half and the message the raw right
half. -/
def split_sender_and_text (rest : List Char) : Option (List Char) × List Char :=
  match splitOnColonSpace rest with
  | some (sender, msg) =>
    if strip sender = [] ∧ strip msg = [] then (none, [])
    else (some (strip sender), msg)
  | none => (none, rest)

/-- One match of the `HEADER` regex
`^(\d{2}/\d{2}/\d{4})\s+(\d{2}:\d{2})\s+-\s(.*)` (MULTILINE): its span
`[start, stop)` in the text and the three captured groups. -/
structure HeaderMatch where
  start : Nat
  stop : Nat
  date : List Char
  time : List Char
  rest : List Char
deriving DecidableEq

/-- Match the body of the `HEADER` regex against a suffix of the text:
two digits, `/`, two digits, `/`, four digits, then `\s+` (greedy, which for
this pattern is the maximal whitespace run), `\d{2}:\d{2}`, `\s+`, `-`, one
whitespace character, and `(.*)` (the maximal newline-free run).  Returns the
three groups and the number of characters consumed. -/
def matchCore (l : List Char) : Option (List Char × List Char × List Char × Nat) :=
  match l with
  | d1 :: d2 :: a :: d3 :: d4 :: b :: y1 :: y2 :: y3 :: y4 :: l1 =>
    if d1.isDigit && d2.isDigit && a == '/' && d3.isDigit && d4.isDigit && b == '/'
        && y1.isDigit && y2.isDigit && y3.isDigit && y4.isDigit then
      let w1 := (l1.takeWhile isPySpace).length
      let l2 := l1.drop w1
      if w1 == 0 then none else
      match l2 with
      | h1 :: h2 :: cc :: m1 :: m2 :: l3 =>
        if h1.isDigit && h2.isDigit && cc == ':' && m1.isDigit && m2.isDigit then
          let w2 := (l3.takeWhile isPySpace).length
          let l4 := l3.drop w2
          if w2 == 0 then none else
          match l4 with
          | '-' :: sc :: l5 =>
            if isPySpace sc then
              let g3 := l5.takeWhile fun ch => !(ch == '\n')
              some ([d1, d2, a, d3, d4, b, y1, y2, y3, y4], [h1, h2, cc, m1, m2], g3,
                    10 + w1 + 5 + w2 + 2 + g3.length)
            else none
          | _ => none
        else none
      | _ => none
    else none
  | _ => none

/-- Attempt a `HEADER` match at position `p`: the MULTILINE `^` anchor
requires `p` to be the start of the text or to follow a newline. -/
def matchAt (text : List Char) (p : Nat) : Option HeaderMatch :=
  if p = 0 ∨ text.get? (p - 1) = some '\n' then
    (matchCore (text.drop p)).map fun g => ⟨p, p + g.2.2.2, g.1, g.2.1, g.2.2.1⟩
  else none

/-- Scan for matches left to right from position `p`, resuming after the end
of each match, exactly as `re.finditer` does.  The fuel argument bounds the
number of scan steps; each step advances the position by at least one. -/
def findFromAux (text : List Char) : Nat → Nat → List HeaderMatch
  | _, 0 => []
  | p, fuel + 1 =>
    if p ≤ text.length then
      match matchAt text p with
      | some m => m :: findFromAux text m.stop fuel
      | none => findFromAux text (p + 1) fuel
    else []

/-- Line 67 of `conversation_to_context_v2.py`:
`matches = list(HEADER.finditer(text))`. -/
def finditer (text : List Char) : List HeaderMatch :=
  findFromAux text 0 (text.length + 1)

/-- One parsed record as built in `parse_chat` lines 99-104: date, time,
optional sender (absent for system messages) and message text. -/
structure ParsedMessage where
  date : List Char
  time : List Char
  sender : Option (List Char)
  message : List Char
deriving DecidableEq

/-- Lines 81-85 of `conversation_to_context_v2.py`: concatenate the header
remainder with the block body, inserting a newline unless the body already
begins with one or is empty. -/
def combineRestBody (rest body : List Char) : List Char :=
  match body with
  | '\n' :: _ => rest ++ body
  | [] => rest
  | _ => rest ++ '\n' :: body

/-- The combined block text after line-ending normalization (line 88) but
before the trailing-newline strip of line 91.  The body is the text from the
end of this match up to `nextStart` (the start of the next header, or the
text length for the last block), per lines 73-76. -/
def combinedRaw (text : List Char) (m : HeaderMatch) (nextStart : Nat) : List Char :=
  normalizeNewlines (combineRestBody m.rest ((text.drop m.stop).take (nextStart - m.stop)))

/-- The combined block text handed to `split_sender_and_text` (line 93),
i.e. after the trailing-newline strip of line 91. -/
def combinedOf (text : List Char) (m : HeaderMatch) (nextStart : Nat) : List Char :=
  rstripNl (combinedRaw text m nextStart)

/-- Lines 70-104 of `conversation_to_context_v2.py`: turn one header match
(with the start of the following match) into a `ParsedMessage`; the message
is the split-off text with surrounding whitespace stripped (line 97). -/
def processMatch (text : List Char) (m : HeaderMatch) (nextStart : Nat) : ParsedMessage :=
  match split_sender_and_text (combinedOf text m nextStart) with
  | (sender, msg) => { date := m.date, time := m.time, sender := sender, message := strip msg }

/-- The loop of `parse_chat` lines 69-104: each match is processed with the
start of the next match as its body boundary; the last match extends to the
end of the text. -/
def parse_chat_aux (text : List Char) : List HeaderMatch → List ParsedMessage
  | [] => []
  | [m] => [processMatch text m text.length]
  | m :: m' :: rest => processMatch text m m'.start :: parse_chat_aux text (m' :: rest)

/-- Lines 61-106 of `conversation_to_context_v2.py` (`parse_chat`). -/
def parse_chat (text : List Char) : List ParsedMessage :=
  parse_chat_aux text (finditer text)

/-- The raw spans owned by consecutive header matches: from each start
position to the next start position, the last span extending to the end of
the text. -/
def blockSpansAux (text : List Char) : List Nat → List (List Char)
  | [] => []
  | [s] => [text.drop s]
  | s :: s' :: rest => (text.drop s).take (s' - s) :: blockSpansAux text (s' :: rest)

/-- The raw text spans of all blocks produced by the Tokenizer, headers
included. -/
def blockSpans (text : List Char) : List (List Char) :=
  blockSpansAux text ((finditer text).map HeaderMatch.start)

/-- Lines 24-26 of `conversation_to_context_v2.py`: the static
identity-to-role table.  The single configured assistant identity contains an
EN DASH, not a hyphen. -/
def ASSISTANT_REFERENCE_DICT : List (List Char × List Char) :=
  [("Mavi – Mosaic".toList, "assistant".toList)]

/-- Python `ASSISTANT_REFERENCE_DICT.get(message["sender"], "user")`
(line 116): a `None` sender is never a key of the table, so it takes the
default; a string sender is looked up in the table. -/
def dictGet (d : List (List Char × List Char)) (k : Option (List Char))
    (dflt : List Char) : List Char :=
  match k with
  | none => dflt
  | some s =>
    match d.lookup s with
    | some v => v
    | none => dflt

/-- One record of the AI-context format built by `parse_to_context`. -/
structure ContextRecord where
  role : List Char
  content : List Char
deriving DecidableEq

/-- Lines 109-119 of `conversation_to_context_v2.py` (`parse_to_context`). -/
def parse_to_context (messages : List ParsedMessage) : List ContextRecord :=
  messages.map fun m =>
    { role := dictGet ASSISTANT_REFERENCE_DICT m.sender "user".toList
      content := m.message }

/-- Python `r.get("sender", "")` followed by `csv.writer`'s rendering:
a `None` sender is written as the empty field. -/
def senderField : Option (List Char) → List Char
  | none => []
  | some s => s

/-- Lines 130-135 of `conversation_to_context_v2.py`: the four cell values of
one row of the messages table. -/
def write_messages_row (r : ParsedMessage) : List (List Char) :=
  [r.date, r.time, senderField r.sender, r.message]

/-- Python `csv.writer` QUOTE_MINIMAL rule: a field is quoted exactly when it
contains the delimiter, the quote character, or a line-break character. -/
def fieldNeedsQuote (f : List Char) : Bool :=
  f.any fun c => c == ',' || c == '"' || c == '\n' || c == '\r'

/-- Python `csv.writer` doublequote escaping: each quote character in a
quoted field is doubled. -/
def escapeQuotes : List Char → List Char
  | [] => []
  | c :: rest => if c = '"' then '"' :: '"' :: escapeQuotes rest else c :: escapeQuotes rest

/-- Encode one cell for the CSV file (QUOTE_MINIMAL, quote char `"`). -/
def encodeField (f : List Char) : List Char :=
  if fieldNeedsQuote f then '"' :: (escapeQuotes f ++ ['"']) else f

/-- Encode one row for the CSV file: cells joined by commas. -/
def encodeRow : List (List Char) → List Char
  | [] => []
  | [f] => encodeField f
  | f :: fs => encodeField f ++ ',' :: encodeRow fs

/-- Lines 121-136 of `conversation_to_context_v2.py`
(`write_messages_to_csv`): the header row followed by one encoded row per
message, each written with lineterminator `"\n"`. -/
def write_messages_to_csv (rows : List ParsedMessage) : List (List Char) :=
  encodeRow ["date".toList, "time".toList, "sender".toList, "message".toList] ::
    rows.map fun r => encodeRow (write_messages_row r)

/-- The encoded CSV line of a single `ParsedMessage`. -/
def writeMessageLine (r : ParsedMessage) : List Char :=
  encodeRow (write_messages_row r)

/-- Modelled from the spec: the repository contains no reader for the
messages table, only the writer; the spec's round-trip sentence says
re-reading is a standard CSV parse.  This decodes the interior of a quoted
cell (after its opening quote): a doubled quote is a literal quote, a single
quote closes the cell.  Fueled recursion; `none` on exhausted fuel or an
unterminated quote. -/
def decodeQuoted : Nat → List Char → Option (List Char × List Char)
  | 0, _ => none
  | _ + 1, [] => none
  | fuel + 1, c :: rest =>
    if c = '"' then
      if rest.head? = some '"' then
        (decodeQuoted fuel rest.tail).map fun p => ('"' :: p.1, p.2)
      else some ([], rest)
    else (decodeQuoted fuel rest).map fun p => (c :: p.1, p.2)

/-- Modelled from the spec: decode one CSV row into its cells.  A cell
beginning with a quote is read with `decodeQuoted` and must be followed by a
comma or the end of the row; otherwise the cell is the run up to the next
comma. -/
def decodeRow : Nat → List Char → Option (List (List Char))
  | 0, _ => none
  | fuel + 1, l =>
    if l.head? = some '"' then
      match decodeQuoted (fuel + 1) l.tail with
      | some (f, []) => some [f]
      | some (f, c :: rem) =>
        if c = ',' then (decodeRow fuel rem).map fun fs => f :: fs else none
      | none => none
    else
      match l.drop ((l.takeWhile fun c => !(c == ',')).length) with
      | [] => some [l.takeWhile fun c => !(c == ',')]
      | _ :: rem =>
        (decodeRow fuel rem).map fun fs => (l.takeWhile fun c => !(c == ',')) :: fs

/-- Modelled from the spec: re-read one line of the messages table; an empty
sender cell is an absent sender (empty string corresponds to absent in the
round-trip sentence of the spec). -/
def readMessageLine (l : List Char) : Option ParsedMessage :=
  match decodeRow (2 * l.length + 2) l with
  | some [d, t, s, m] =>
    some { date := d, time := t, sender := if s = [] then none else some s, message := m }
  | _ => none

/-- Outcome of one call of `call_anthropic` / `call_gpt`
(`send_context_to_claude.py`): the decoded response, or one of the error
exits of lines 82-103 / 107-139. -/
inductive ApiResult (α : Type) where
  | ok : α → ApiResult α
  | authError : ApiResult α
  | requestError : α → ApiResult α
  | httpStatusError : Nat → ApiResult α
  | decodeError : ApiResult α
deriving DecidableEq

/-- The remote HTTP response as the client observes it: a status code and
the JSON-decoded body (`none` when `resp.json()` raises). -/
structure HttpResponse (α : Type) where
  status : Nat
  body : Option α
deriving DecidableEq

/-- Lines 81-103 of `send_context_to_claude.py` (`call_anthropic`): a missing
or empty credential raises before any network call; otherwise exactly one
request is made; a decodable body with status at least 400 raises with that
body; a decodable body with success status is returned; an undecodable body
raises `HTTPError` for a 4xx/5xx status and re-raises the decode failure
otherwise.  The second component counts the network calls performed. -/
def call_anthropic (α : Type) (apiKey : Option (List Char)) (resp : HttpResponse α) :
    ApiResult α × Nat :=
  match apiKey with
  | none => (.authError, 0)
  | some k =>
    if k = [] then (.authError, 0)
    else
      match resp.body with
      | some data =>
        if 400 ≤ resp.status then (.requestError data, 1) else (.ok data, 1)
      | none =>
        if 400 ≤ resp.status ∧ resp.status < 600 then (.httpStatusError resp.status, 1)
        else (.decodeError, 1)

/-- Lines 106-139 of `send_context_to_claude.py` (`call_gpt`): identical
control flow to `call_anthropic` with the OpenAI credential and endpoint. -/
def call_gpt (α : Type) (apiKey : Option (List Char)) (resp : HttpResponse α) :
    ApiResult α × Nat :=
  match apiKey with
  | none => (.authError, 0)
  | some k =>
    if k = [] then (.authError, 0)
    else
      match resp.body with
      | some data =>
        if 400 ≤ resp.status then (.requestError data, 1) else (.ok data, 1)
      | none =>
        if 400 ≤ resp.status ∧ resp.status < 600 then (.httpStatusError resp.status, 1)
        else (.decodeError, 1)

/-- A row of the role/content table as `csv.DictReader` hands it to
`read_messages_from_csv`: either cell may be missing or empty. -/
structure CsvRow where
  role : Option (List Char)
  content : Option (List Char)
deriving DecidableEq

/-- Python `(row.get("role") or "")`: a missing value becomes the empty
string (an empty string is already falsy and stays empty). -/
def orEmpty : Option (List Char) → List Char
  | none => []
  | some s => s

/-- The per-row step of `read_messages_from_csv` lines 52-61: trim the
content and skip the row when blank; lowercase the trimmed role and map
anything other than "assistant" to "user". -/
def rowToMessage (row : CsvRow) : Option ContextRecord :=
  let role_raw := (strip (orEmpty row.role)).map Char.toLower
  let content := strip (orEmpty row.content)
  if content = [] then none
  else
    some { role := if role_raw = "assistant".toList then "assistant".toList else "user".toList
           content := content }

/-- Lines 33-65 of `send_context_to_claude.py` (`read_messages_from_csv`),
after `DictReader` has produced the rows: keep the surviving rows and raise
`ValueError` when none survive. -/
def read_messages_from_csv (rows : List CsvRow) : Except (List Char) (List ContextRecord) :=
  let messages := rows.filterMap rowToMessage
  if messages = [] then
    Except.error ("No messages found in CSV (after skipping empty rows).".toList)
  else Except.ok messages

/-- Outcome of one CSV file inside the batch loop of `main`
(`send_context_to_claude.py` lines 244-280). -/
inductive FileOutcome where
  | readFailed
  | printedDryRun
  | apiFailed
  | succeeded
deriving DecidableEq

/-- The per-file environment of one batch iteration: what
`read_messages_from_csv` would produce (`none` when it raises) and whether
the two remote calls succeed. -/
structure FileRun where
  readResult : Option (List ContextRecord)
  apiOk : Bool
deriving DecidableEq

/-- One iteration of the batch loop: a read failure is reported and skipped;
in dry-run mode the payload is printed; an API failure is reported and
skipped; otherwise the file succeeds.  No outcome stops the loop. -/
def processFile (dry_run : Bool) (f : FileRun) : FileOutcome :=
  match f.readResult with
  | none => .readFailed
  | some _ => if dry_run then .printedDryRun else if f.apiOk then .succeeded else .apiFailed

/-- Lines 223-285 of `send_context_to_claude.py` (`main`): exit 1 when the
folder is missing, exit 1 when it contains no CSV file, otherwise process
every file and exit 0.  Returns the exit status and the per-file outcomes. -/
def send_main (folderExists : Bool) (dry_run : Bool) (csv_files : List FileRun) :
    Nat × List FileOutcome :=
  if folderExists = false then (1, [])
  else if csv_files = [] then (1, [])
  else (0, csv_files.map (processFile dry_run))

/-- A transcript whose first block body ends in a run of three newline
characters (the newline closing the header line followed by two blank
lines). -/
def sampleTrailingNewlines : List Char :=
  "24/07/2025 11:22 - A: hi\n\n\n24/07/2025 11:23 - B: yo".toList

/-- Does the list end with a newline character? -/
def lastIsNl (l : List Char) : Bool :=
  match l.getLast? with
  | some c => c == '\n'
  | none => false

/-- Does the list end with a whitespace character? -/
def lastIsSpace (l : List Char) : Bool :=
  match l.getLast? with
  | some c => isPySpace c
  | none => false

/-! ## Supporting lemmas -/

theorem head?_dropWhile_eq_some {p : Char → Bool} {l : List Char} {c : Char}
    (h : (l.dropWhile p).head? = some c) : p c = false := by
  have hmatch := List.head?_dropWhile_not p l
  rw [h] at hmatch
  exact hmatch

theorem rstripNl_flank (l : List Char) :
    ∃ k, l = rstripNl l ++ List.replicate k '\n' := by
  refine ⟨(l.reverse.takeWhile (fun c => c == '\n')).length, ?_⟩
  have hall : ∀ x ∈ l.reverse.takeWhile (fun c => c == '\n'), x = '\n' := by
    intro x hx
    simpa using List.mem_takeWhile_imp hx
  have hrep : l.reverse.takeWhile (fun c => c == '\n')
      = List.replicate (l.reverse.takeWhile (fun c => c == '\n')).length '\n' :=
    List.eq_replicate_iff.mpr ⟨rfl, hall⟩
  conv_lhs =>
    rw [← List.reverse_reverse l,
      ← List.takeWhile_append_dropWhile (fun c => c == '\n') l.reverse]
  rw [List.reverse_append]
  unfold rstripNl
  congr 1
  rw [hrep, List.reverse_replicate, List.length_replicate]

theorem lastIsNl_rstripNl (l : List Char) : lastIsNl (rstripNl l) = false := by
  unfold lastIsNl rstripNl
  rw [List.getLast?_reverse]
  cases h : (l.reverse.dropWhile (fun c => c == '\n')).head? with
  | none => rfl
  | some c => exact head?_dropWhile_eq_some h

theorem lastIsSpace_strip (l : List Char) : lastIsSpace (strip l) = false := by
  unfold lastIsSpace strip rstrip
  rw [List.getLast?_reverse]
  cases h : ((lstrip l).reverse.dropWhile isPySpace).head? with
  | none => rfl
  | some c => exact head?_dropWhile_eq_some h

theorem strip_flanks (l : List Char) :
    ∃ a z, l = a ++ (strip l ++ z) ∧ a.all isPySpace = true ∧ z.all isPySpace = true := by
  refine ⟨l.takeWhile isPySpace, ((lstrip l).reverse.takeWhile isPySpace).reverse, ?_, ?_, ?_⟩
  · have h1 : l = l.takeWhile isPySpace ++ lstrip l :=
      (List.takeWhile_append_dropWhile isPySpace l).symm
    have h2 : lstrip l = strip l ++ ((lstrip l).reverse.takeWhile isPySpace).reverse := by
      conv_lhs =>
        rw [← List.reverse_reverse (lstrip l),
          ← List.takeWhile_append_dropWhile isPySpace (lstrip l).reverse]
      rw [List.reverse_append]
      rfl
    conv_lhs => rw [h1, h2]
  · rw [List.all_eq_true]
    intro x hx
    exact List.mem_takeWhile_imp hx
  · rw [List.all_eq_true]
    intro x hx
    rw [List.mem_reverse] at hx
    exact List.mem_takeWhile_imp hx

theorem splitOnColonSpace_eq_some {l a b : List Char}
    (h : splitOnColonSpace l = some (a, b)) : l = a ++ ':' :: ' ' :: b := by
  induction l generalizing a b with
  | nil => simp [splitOnColonSpace] at h
  | cons c rest ih =>
    rw [splitOnColonSpace] at h
    by_cases hc : c = ':' ∧ rest.head? = some ' '
    · rw [if_pos hc] at h
      obtain ⟨hc1, hc2⟩ := hc
      cases rest with
      | nil => simp at hc2
      | cons r rs =>
        simp only [List.head?_cons, Option.some.injEq] at hc2
        simp only [Option.some.injEq, Prod.mk.injEq, List.tail_cons] at h
        rw [hc1, hc2, ← h.1, ← h.2]
        rfl
    · rw [if_neg hc, Option.map_eq_some'] at h
      obtain ⟨p, hp, hfp⟩ := h
      obtain ⟨p1, p2⟩ := p
      simp only [Prod.mk.injEq] at hfp
      rw [← hfp.1, ← hfp.2, List.cons_append]
      rw [ih hp]

theorem splitOnColonSpace_append (s m : List Char) (h : splitOnColonSpace s = none) :
    splitOnColonSpace (s ++ ':' :: ' ' :: m) = some (s, m) := by
  induction s with
  | nil =>
    rw [List.nil_append, splitOnColonSpace]
    simp
  | cons c s' ih =>
    rw [splitOnColonSpace] at h
    rw [List.cons_append, splitOnColonSpace]
    by_cases hc : c = ':' ∧ s'.head? = some ' '
    · rw [if_pos hc] at h
      exact absurd h (by simp)
    · rw [if_neg hc, Option.map_eq_none'] at h
      have hgc : ¬(c = ':' ∧ (s' ++ ':' :: ' ' :: m).head? = some ' ') := by
        cases s' with
        | nil => simp
        | cons x xs => simpa using hc
      rw [if_neg hgc, ih h]
      rfl 

theorem split_sender_eq_of_some {full a b : List Char}
    (h : splitOnColonSpace full = some (a, b)) :
    split_sender_and_text full
      = if strip a = [] ∧ strip b = [] then (none, []) else (some (strip a), b) := by
  unfold split_sender_and_text
  rw [h]

theorem split_sender_eq_of_none {full : List Char}
    (h : splitOnColonSpace full = none) :
    split_sender_and_text full = (none, full) := by
  unfold split_sender_and_text
  rw [h]

/-! ## Claim theorems -/

/-- C2: the Message Decomposer splits the combined text on the FIRST
occurrence of the two-character delimiter ": ": for any candidate sender
text `s` that contains no ": " (it may contain hyphens and lone colons) and
any message `m`, as long as the block is not whitespace-degenerate, the
split yields the trimmed `s` as the sender identity and `m` — later colons
included — as the message, so an identity such as "Mavi - Mosaic" is
preserved whole and no split occurs at the hyphen. -/
theorem c2_split_first_colon_space (s m : List Char)
    (h1 : splitOnColonSpace s = none)
    (h2 : ¬(strip s = [] ∧ strip m = [])) :
    split_sender_and_text (s ++ ':' :: ' ' :: m) = (some (strip s), m) := by
  rw [split_sender_eq_of_some (splitOnColonSpace_append s m h1), if_neg h2]

/-- Witness for C2 at a hyphenated sender and a message containing a later
colon. -/
theorem c2_split_first_colon_space_witness :
    splitOnColonSpace ("Mavi - Mosaic".toList) = none
    ∧ strip ("Mavi - Mosaic".toList) = "Mavi - Mosaic".toList
    ∧ split_sender_and_text
        ("Mavi - Mosaic".toList ++ ':' :: ' ' :: "ok: see you at 10:30".toList)
        = (some (strip ("Mavi - Mosaic".toList)), "ok: see you at 10:30".toList) :=
  ⟨by decide, by decide,
    c2_split_first_colon_space ("Mavi - Mosaic".toList) ("ok: see you at 10:30".toList)
      (by decide) (by decide)⟩

/-- C4: the Decomposer returns an absent sender exactly when the ": "
delimiter is missing from the combined text (then the whole text is the
message) or when both split halves are blank after trimming (then the record
degenerates to an absent sender with an empty message). -/
theorem c4_absent_sender (full : List Char) :
    ((split_sender_and_text full).1 = none ↔
      splitOnColonSpace full = none
        ∨ ∃ a b, splitOnColonSpace full = some (a, b) ∧ strip a = [] ∧ strip b = [])
    ∧ (splitOnColonSpace full = none → split_sender_and_text full = (none, full))
    ∧ (∀ a b, splitOnColonSpace full = some (a, b) → strip a = [] → strip b = [] →
        split_sender_and_text full = (none, [])) := by
  cases hsp : splitOnColonSpace full with
  | none =>
    rw [split_sender_eq_of_none hsp]
    refine ⟨⟨fun _ => Or.inl rfl, fun _ => rfl⟩, fun _ => rfl, ?_⟩
    intro a b hab ha hb
    exact absurd hab (by simp)
  | some p =>
    obtain ⟨a0, b0⟩ := p
    rw [split_sender_eq_of_some hsp]
    by_cases hd : strip a0 = [] ∧ strip b0 = []
    · rw [if_pos hd]
      refine ⟨⟨fun _ => Or.inr ⟨a0, b0, rfl, hd.1, hd.2⟩, fun _ => rfl⟩, ?_,
        fun a b _ _ _ => rfl⟩
      intro hnone
      exact absurd hnone (by simp)
    · rw [if_neg hd]
      refine ⟨⟨fun habs => absurd habs (by simp), ?_⟩, ?_, ?_⟩
      · rintro (hnone | ⟨a, b, hab, ha, hb⟩)
        · exact absurd hnone (by simp)
        · obtain ⟨h1, h2⟩ : a0 = a ∧ b0 = b := by
            simpa using hab
          subst h1
          subst h2
          exact absurd ⟨ha, hb⟩ hd
      · intro hnone
        exact absurd hnone (by simp)
      · intro a b hab ha hb
        obtain ⟨h1, h2⟩ : a0 = a ∧ b0 = b := by
          simpa using hab
        subst h1
        subst h2
        exact absurd ⟨ha, hb⟩ hd

/-- Witness for C4: a block with no ": " is a system message whose whole
text becomes the message, and a bare-header block degenerates to an absent
sender with an empty message. -/
theorem c4_absent_sender_witness :
    split_sender_and_text ("As mensagens e as chamadas sao protegidas".toList)
      = (none, "As mensagens e as chamadas sao protegidas".toList)
    ∧ split_sender_and_text (" : ".toList) = (none, []) :=
  ⟨(c4_absent_sender ("As mensagens e as chamadas sao protegidas".toList)).2.1 (by decide),
    (c4_absent_sender (" : ".toList)).2.2 [' '] [] (by decide) (by decide) (by decide)⟩

/-- C3 counterexample: in `sampleTrailingNewlines` the first block's body is
the three-newline run at positions 24-26, yet the resulting first message is
"hi" with no trailing newline kept, while the claim predicts that all but
one of the trailing newlines survive in the message. -/
theorem c3_counterexample :
    (finditer sampleTrailingNewlines).map HeaderMatch.start = [0, 27]
    ∧ (finditer sampleTrailingNewlines).map HeaderMatch.stop = [24, 51]
    ∧ (sampleTrailingNewlines.drop 24).take 3 = ['\n', '\n', '\n']
    ∧ (parse_chat sampleTrailingNewlines).map ParsedMessage.message
        = ["hi".toList, "yo".toList] := by
  decide

/-- C3 amended: line 91 strips the ENTIRE run of trailing newlines from the
combined block text — not exactly one — and the whitespace strip of line 97
removes any remaining trailing whitespace, so a block whose body ends in two
or more newline characters keeps none of them: the combined text handed to
the splitter never ends in a newline and the resulting message never ends in
whitespace. -/
theorem c3_amended_strip_all_trailing (text : List Char) (m : HeaderMatch)
    (nextStart : Nat) :
    (∃ k, combinedRaw text m nextStart
        = combinedOf text m nextStart ++ List.replicate k '\n')
    ∧ lastIsNl (combinedOf text m nextStart) = false
    ∧ lastIsSpace (processMatch text m nextStart).message = false := by
  refine ⟨rstripNl_flank _, lastIsNl_rstripNl _, ?_⟩
  rcases hsplit : split_sender_and_text (combinedOf text m nextStart) with ⟨s, msg⟩
  have hmsg : (processMatch text m nextStart).message = strip msg := by
    unfold processMatch
    rw [hsplit]
  rw [hmsg]
  exact lastIsSpace_strip msg

/-- C5: every internal character of a message — its newlines in particular —
comes verbatim from the combined block text: the split-off message part is a
contiguous suffix of the combined text, and the final trim removes only
whitespace flanks around the stored message, never anything internal. -/
theorem c5_internal_newlines_verbatim (text : List Char) (m : HeaderMatch)
    (nextStart : Nat) :
    ∃ pre a z,
      combinedOf text m nextStart
          = pre ++ (split_sender_and_text (combinedOf text m nextStart)).2
      ∧ (split_sender_and_text (combinedOf text m nextStart)).2
          = a ++ ((processMatch text m nextStart).message ++ z)
      ∧ a.all isPySpace = true ∧ z.all isPySpace = true := by
  rcases hsplit : split_sender_and_text (combinedOf text m nextStart) with ⟨s, msg⟩
  have hmsg : (processMatch text m nextStart).message = strip msg := by
    unfold processMatch
    rw [hsplit]
  rw [hmsg]
  obtain ⟨a, z, hflank, ha, hz⟩ := strip_flanks msg
  cases hsp : splitOnColonSpace (combinedOf text m nextStart) with
  | none =>
    have heq := split_sender_eq_of_none hsp
    rw [heq] at hsplit
    obtain ⟨hs, hm⟩ : s = none ∧ msg = combinedOf text m nextStart := by
      simpa using hsplit.symm
    exact ⟨[], a, z, by rw [List.nil_append, hm], hflank, ha, hz⟩
  | some p =>
    obtain ⟨a0, b0⟩ := p
    have heq := split_sender_eq_of_some hsp
    have hfull := splitOnColonSpace_eq_some hsp
    by_cases hd : strip a0 = [] ∧ strip b0 = []
    · rw [heq, if_pos hd] at hsplit
      obtain ⟨hs, hm⟩ : s = none ∧ msg = [] := by
        simpa using hsplit.symm
      refine ⟨combinedOf text m nextStart, a, z, ?_, hflank, ha, hz⟩
      rw [hm, List.append_nil]
    · rw [heq, if_neg hd] at hsplit
      obtain ⟨hs, hm⟩ : s = some (strip a0) ∧ msg = b0 := by
        simpa using hsplit.symm
      refine ⟨a0 ++ [':', ' '], a, z, ?_, hflank, ha, hz⟩
      rw [hfull, hm, List.append_assoc]
      rfl

/-- C6: the Role Mapper is a pure lookup producing exactly one role/content
record per parsed message, in input order: a sender exactly equal to the
configured assistant identity (the EN-DASH name in
`ASSISTANT_REFERENCE_DICT`) maps to role "assistant" and every other sender
value, the absent sender included, maps to role "user"; the content is the
message text unchanged. -/
theorem c6_role_mapper_lookup (messages : List ParsedMessage) :
    parse_to_context messages = messages.map fun m =>
      { role := if m.sender = some ("Mavi – Mosaic".toList) then "assistant".toList
                else "user".toList
        content := m.message } := by
  have hget : ∀ k : Option (List Char),
      dictGet ASSISTANT_REFERENCE_DICT k "user".toList
        = if k = some ("Mavi – Mosaic".toList) then "assistant".toList
          else "user".toList := by
    intro k
    cases k with
    | none => rfl
    | some sdr =>
      by_cases hk : sdr = "Mavi – Mosaic".toList
      · subst hk
        simp [dictGet, ASSISTANT_REFERENCE_DICT, List.lookup]
      · have hbeq : (sdr == "Mavi – Mosaic".toList) = false :=
          beq_eq_false_iff_ne.mpr hk
        simp only [dictGet, ASSISTANT_REFERENCE_DICT, List.lookup, hbeq,
          Option.some.injEq, if_neg hk]
  unfold parse_to_context
  simp only [hget]

/-- C8: the API client fails before any network call when no credential is
configured (a missing or empty environment value), performs exactly one
network call otherwise with no retry, surfaces the decoded error body to the
caller when the remote status is a failure, and returns the decoded body on
success; `call_gpt` behaves identically. -/
theorem c8_api_client_errors (α : Type) (resp : HttpResponse α) (key : List Char)
    (hkey : key ≠ []) :
    call_anthropic α none resp = (.authError, 0)
    ∧ call_anthropic α (some []) resp = (.authError, 0)
    ∧ (call_anthropic α (some key) resp).2 = 1
    ∧ (∀ d, resp.body = some d → 400 ≤ resp.status →
        (call_anthropic α (some key) resp).1 = .requestError d)
    ∧ (∀ d, resp.body = some d → resp.status < 400 →
        (call_anthropic α (some key) resp).1 = .ok d)
    ∧ call_gpt α none resp = (.authError, 0)
    ∧ call_gpt α (some []) resp = (.authError, 0)
    ∧ (call_gpt α (some key) resp).2 = 1
    ∧ (∀ d, resp.body = some d → 400 ≤ resp.status →
        (call_gpt α (some key) resp).1 = .requestError d)
    ∧ (∀ d, resp.body = some d → resp.status < 400 →
        (call_gpt α (some key) resp).1 = .ok d) := by
  obtain ⟨status, body⟩ := resp
  refine ⟨rfl, by simp [call_anthropic], ?_, ?_, ?_, rfl, by simp [call_gpt], ?_, ?_, ?_⟩
  all_goals
    simp only [call_anthropic, call_gpt, if_neg hkey]
  · cases body with
    | none =>
      by_cases hs : 400 ≤ status ∧ status < 600 <;> simp [hs]
    | some d =>
      by_cases hs : 400 ≤ status <;> simp [hs]
  · intro d hb hs
    subst hb
    simp [hs]
  · intro d hb hs
    subst hb
    simp [Nat.not_le.mpr hs]
  · cases body with
    | none =>
      by_cases hs : 400 ≤ status ∧ status < 600 <;> simp [hs]
    | some d =>
      by_cases hs : 400 ≤ status <;> simp [hs]
  · intro d hb hs
    subst hb
    simp [hs]
  · intro d hb hs
    subst hb
    simp [Nat.not_le.mpr hs]

/-- Witness for C8 at a failing remote status with a decoded error body. -/
theorem c8_api_client_errors_witness :
    ("k".toList ≠ [])
    ∧ call_anthropic Nat none ⟨429, some 7⟩ = (.authError, 0)
    ∧ (call_anthropic Nat (some "k".toList) ⟨429, some 7⟩).2 = 1
    ∧ (call_anthropic Nat (some "k".toList) ⟨429, some 7⟩).1 = .requestError 7
    ∧ (call_gpt Nat (some "k".toList) ⟨200, some 7⟩).1 = .ok 7 :=
  ⟨by decide,
    (c8_api_client_errors Nat ⟨429, some 7⟩ "k".toList (by decide)).1,
    (c8_api_client_errors Nat ⟨429, some 7⟩ "k".toList (by decide)).2.2.1,
    (c8_api_client_errors Nat ⟨429, some 7⟩ "k".toList (by decide)).2.2.2.1 7 rfl
      (by decide),
    (c8_api_client_errors Nat ⟨200, some 7⟩ "k".toList (by decide)).2.2.2.2.2.2.2.2.2 7 rfl
      (by decide)⟩

/-- C9: for the batch driver of `send_context_to_claude.py`, the exit status
is nonzero exactly when no input file was found (missing folder or empty
folder), and whenever files are found every one of them is processed — each
file's outcome depends only on that file, so a read failure or an API
failure in one file never aborts the remaining files. -/
theorem c9_batch_continues (folderExists dry_run : Bool) (files : List FileRun) :
    ((send_main folderExists dry_run files).1 ≠ 0 ↔
      folderExists = false ∨ files = [])
    ∧ (folderExists = true → files ≠ [] →
        send_main folderExists dry_run files = (0, files.map (processFile dry_run))) := by
  constructor
  · cases folderExists with
    | false => simp [send_main]
    | true =>
      by_cases hf : files = [] <;> simp [send_main, hf]
  · intro hfe hne
    subst hfe
    simp [send_main, hne]

/-- Witness for C9: a batch with one unreadable file, one file whose remote
call fails and one successful file exits 0 and processes all three files. -/
theorem c9_batch_continues_witness :
    (([⟨none, true⟩, ⟨some [⟨"user".toList, "hi".toList⟩], false⟩,
        ⟨some [⟨"user".toList, "hi".toList⟩], true⟩] : List FileRun) ≠ [])
    ∧ send_main true false
        [⟨none, true⟩, ⟨some [⟨"user".toList, "hi".toList⟩], false⟩,
          ⟨some [⟨"user".toList, "hi".toList⟩], true⟩]
        = (0, [.readFailed, .apiFailed, .succeeded]) :=
  ⟨by decide,
    ((c9_batch_continues true false
      [⟨none, true⟩, ⟨some [⟨"user".toList, "hi".toList⟩], false⟩,
        ⟨some [⟨"user".toList, "hi".toList⟩], true⟩]).2 rfl (by decide)).trans (by decide)⟩

/-- C10: reading a role/content table drops every row whose content is blank
after trimming, normalizes every role other than (case-insensitive, trimmed)
"assistant" to "user", and raises `ValueError` exactly when no row survives;
consequently every message list that is returned for forwarding to the API
is non-empty, with each role either "user" or "assistant" and each content
non-empty. -/
theorem c10_read_messages_filter (rows : List CsvRow) :
    ((∃ e, read_messages_from_csv rows = .error e) ↔
      ∀ row ∈ rows, strip (orEmpty row.content) = [])
    ∧ (∀ l, read_messages_from_csv rows = .ok l →
        l = rows.filterMap rowToMessage
        ∧ l ≠ []
        ∧ ∀ msg ∈ l, (msg.role = "user".toList ∨ msg.role = "assistant".toList)
            ∧ msg.content ≠ []) := by
  have hnone : ∀ row : CsvRow, rowToMessage row = none ↔ strip (orEmpty row.content) = [] := by
    intro row
    unfold rowToMessage
    by_cases hc : strip (orEmpty row.content) = [] <;> simp [hc]
  constructor
  · unfold read_messages_from_csv
    by_cases hemp : rows.filterMap rowToMessage = []
    · simp only [hemp, if_pos rfl]
      rw [List.filterMap_eq_nil_iff] at hemp
      refine ⟨fun _ => ?_, fun _ => ⟨_, rfl⟩⟩
      intro row hrow
      exact (hnone row).mp (hemp row hrow)
    · simp only [if_neg hemp]
      constructor
      · rintro ⟨e, he⟩
        exact absurd he (by simp)
      · intro hall
        exact absurd (List.filterMap_eq_nil_iff.mpr
          fun row hrow => (hnone row).mpr (hall row hrow)) hemp
  · intro l hl
    unfold read_messages_from_csv at hl
    by_cases hemp : rows.filterMap rowToMessage = []
    · rw [if_pos hemp] at hl
      exact absurd hl (by simp)
    · rw [if_neg hemp] at hl
      have hleq : l = rows.filterMap rowToMessage := by
        simpa using hl.symm
      refine ⟨hleq, by rw [hleq]; exact hemp, ?_⟩
      intro msg hmsg
      rw [hleq, List.mem_filterMap] at hmsg
      obtain ⟨row, hrow, hsome⟩ := hmsg
      unfold rowToMessage at hsome
      by_cases hc : strip (orEmpty row.content) = []
      · rw [if_pos hc] at hsome
        exact absurd hsome (by simp)
      · rw [if_neg hc] at hsome
        have hmsgeq : msg = ⟨if (strip (orEmpty row.role)).map Char.toLower
              = "assistant".toList then "assistant".toList else "user".toList,
            strip (orEmpty row.content)⟩ := by
          simpa using hsome.symm
        subst hmsgeq
        constructor
        · by_cases hr : (strip (orEmpty row.role)).map Char.toLower = "assistant".toList
          · right
            rw [if_pos hr]
          · left
            rw [if_neg hr]
        · simpa using hc

/-- Witness for C10: a two-row table with one blank-content row yields
exactly the surviving normalized row. -/
theorem c10_read_messages_filter_witness :
    read_messages_from_csv
        [⟨some "Assistant ".toList, some "  ".toList⟩,
          ⟨some " HUMAN".toList, some " hi there ".toList⟩]
      = .ok [⟨"user".toList, "hi there".toList⟩]
    ∧ ([⟨"user".toList, "hi there".toList⟩] : List ContextRecord) ≠ []
    ∧ ∀ msg ∈ ([⟨"user".toList, "hi there".toList⟩] : List ContextRecord),
        (msg.role = "user".toList ∨ msg.role = "assistant".toList) ∧ msg.content ≠ [] :=
  ⟨by rfl,
    ((c10_read_messages_filter
        [⟨some "Assistant ".toList, some "  ".toList⟩,
          ⟨some " HUMAN".toList, some " hi there ".toList⟩]).2
      [⟨"user".toList, "hi there".toList⟩] (by rfl)).2.1,
    ((c10_read_messages_filter
        [⟨some "Assistant ".toList, some "  ".toList⟩,
          ⟨some " HUMAN".toList, some " hi there ".toList⟩]).2
      [⟨"user".toList, "hi there".toList⟩] (by rfl)).2.2⟩

theorem matchAt_start_le {text : List Char} {p : Nat} {m : HeaderMatch}
    (h : matchAt text p = some m) : m.start = p ∧ p ≤ m.stop := by
  unfold matchAt at h
  by_cases hp : p = 0 ∨ text.get? (p - 1) = some '\n'
  · rw [if_pos hp, Option.map_eq_some'] at h
    obtain ⟨g, hg, hfg⟩ := h
    rw [← hfg]
    exact ⟨rfl, Nat.le_add_right p _⟩
  · rw [if_neg hp] at h
    exact absurd h (by simp)

theorem chain_le_weaken {a b : Nat} {l : List Nat} (hba : b ≤ a)
    (h : List.Chain (· ≤ ·) a l) : List.Chain (· ≤ ·) b l := by
  cases l with
  | nil => exact List.Chain.nil
  | cons x xs =>
    rw [List.chain_cons] at h ⊢
    exact ⟨le_trans hba h.1, h.2⟩

theorem findFromAux_succ (text : List Char) (p fuel : Nat) :
    findFromAux text p (fuel + 1)
      = if p ≤ text.length then
          match matchAt text p with
          | some m => m :: findFromAux text m.stop fuel
          | none => findFromAux text (p + 1) fuel
        else [] := rfl

theorem findFromAux_chain (text : List Char) :
    ∀ (fuel p : Nat),
      List.Chain (· ≤ ·) p ((findFromAux text p fuel).map HeaderMatch.start) := by
  intro fuel
  induction fuel with
  | zero =>
    intro p
    exact List.Chain.nil
  | succ fuel ih =>
    intro p
    by_cases hp : p ≤ text.length
    · cases hm : matchAt text p with
      | none =>
        rw [findFromAux_succ, if_pos hp, hm]
        exact chain_le_weaken (Nat.le_succ p) (ih (p + 1))
      | some m =>
        rw [findFromAux_succ, if_pos hp, hm, List.map_cons, List.chain_cons]
        obtain ⟨hst, hsp⟩ := matchAt_start_le hm
        exact ⟨le_of_eq hst.symm,
          chain_le_weaken (le_trans (le_of_eq hst) hsp) (ih m.stop)⟩
    · rw [findFromAux_succ, if_neg hp]
      exact List.Chain.nil

theorem blockSpansAux_join (text : List Char) :
    ∀ (l : List Nat) (s : Nat), List.Chain (· ≤ ·) s l →
      (blockSpansAux text (s :: l)).flatten = text.drop s := by
  intro l
  induction l with
  | nil =>
    intro s h
    simp [blockSpansAux]
  | cons s' l ih =>
    intro s h
    rw [List.chain_cons] at h
    obtain ⟨hss', hch⟩ := h
    show ((text.drop s).take (s' - s) :: blockSpansAux text (s' :: l)).flatten = text.drop s
    rw [List.flatten_cons, ih s' hch]
    have hdrop : text.drop s' = (text.drop s).drop (s' - s) := by
      rw [List.drop_drop]
      congr 1
      omega
    rw [hdrop, List.take_append_drop]

theorem finditer_cons_of_matchAt {text : List Char} {m0 : HeaderMatch}
    (h : matchAt text 0 = some m0) :
    finditer text = m0 :: findFromAux text m0.stop text.length := by
  unfold finditer
  rw [findFromAux_succ, if_pos (Nat.zero_le text.length), h]

theorem parse_chat_aux_eq_zipWith (text : List Char) :
    ∀ ms : List HeaderMatch,
      parse_chat_aux text ms
        = List.zipWith (processMatch text) ms
            ((ms.tail.map HeaderMatch.start) ++ [text.length]) := by
  intro ms
  induction ms with
  | nil => rfl
  | cons m ms ih =>
    cases ms with
    | nil => rfl
    | cons m' rest =>
      show processMatch text m m'.start :: parse_chat_aux text (m' :: rest) = _
      rw [ih]
      rfl

theorem parse_chat_length (text : List Char) :
    (parse_chat text).length = (finditer text).length := by
  unfold parse_chat
  rw [parse_chat_aux_eq_zipWith, List.length_zipWith]
  cases hms : finditer text with
  | nil => simp
  | cons m ms => simp

/-- C1: for every transcript that begins with a header line (the input
format), the Tokenizer yields one block per header match of the scan, in
order — `parse_chat` pairs match `i` with the start of match `i+1` (or the
end of text for the last match) — and the raw spans of consecutive match
starts partition the text exactly: their concatenation, headers included,
reconstructs the whole text with no gaps or overlaps. -/
theorem c1_tokenizer_partition (text : List Char)
    (h : (matchAt text 0).isSome = true) :
    parse_chat text
        = List.zipWith (processMatch text) (finditer text)
            (((finditer text).tail.map HeaderMatch.start) ++ [text.length])
    ∧ (parse_chat text).length = (finditer text).length
    ∧ (blockSpans text).flatten = text := by
  refine ⟨parse_chat_aux_eq_zipWith text (finditer text), parse_chat_length text, ?_⟩
  obtain ⟨m0, hm0⟩ := Option.isSome_iff_exists.mp h
  have hcons := finditer_cons_of_matchAt hm0
  have hstart : m0.start = 0 := (matchAt_start_le hm0).1
  have hchain : List.Chain (· ≤ ·) 0 ((finditer text).map HeaderMatch.start) :=
    findFromAux_chain text (text.length + 1) 0
  rw [hcons, List.map_cons, hstart, List.chain_cons] at hchain
  unfold blockSpans
  rw [hcons, List.map_cons, hstart]
  rw [blockSpansAux_join text
    ((findFromAux text m0.stop text.length).map HeaderMatch.start) 0 hchain.2]
  exact List.drop_zero text

/-- Witness for C1 on a two-message transcript. -/
theorem c1_tokenizer_partition_witness :
    ((matchAt ("24/07/2025 11:22 - Ana: Oi\n24/07/2025 11:23 - Bia: Tudo bem".toList) 0).isSome
      = true)
    ∧ (blockSpans
          ("24/07/2025 11:22 - Ana: Oi\n24/07/2025 11:23 - Bia: Tudo bem".toList)).flatten
        = "24/07/2025 11:22 - Ana: Oi\n24/07/2025 11:23 - Bia: Tudo bem".toList :=
  ⟨by decide,
    (c1_tokenizer_partition
      ("24/07/2025 11:22 - Ana: Oi\n24/07/2025 11:23 - Bia: Tudo bem".toList)
      (by decide)).2.2⟩

theorem escapeQuotes_cons (c : Char) (rest : List Char) :
    escapeQuotes (c :: rest)
      = if c = '"' then '"' :: '"' :: escapeQuotes rest else c :: escapeQuotes rest := rfl

theorem decodeQuoted_succ_cons (fuel : Nat) (c : Char) (rest : List Char) :
    decodeQuoted (fuel + 1) (c :: rest)
      = if c = '"' then
          if rest.head? = some '"' then
            (decodeQuoted fuel rest.tail).map fun p => ('"' :: p.1, p.2)
          else some ([], rest)
        else (decodeQuoted fuel rest).map fun p => (c :: p.1, p.2) := rfl

theorem decodeRow_succ (fuel : Nat) (l : List Char) :
    decodeRow (fuel + 1) l
      = if l.head? = some '"' then
          match decodeQuoted (fuel + 1) l.tail with
          | some (f, []) => some [f]
          | some (f, c :: rem) =>
            if c = ',' then (decodeRow fuel rem).map fun fs => f :: fs else none
          | none => none
        else
          match l.drop ((l.takeWhile fun c => !(c == ',')).length) with
          | [] => some [l.takeWhile fun c => !(c == ',')]
          | _ :: rem =>
            (decodeRow fuel rem).map fun fs => (l.takeWhile fun c => !(c == ',')) :: fs := rfl

theorem decodeQuoted_escape (f : List Char) :
    ∀ (fuel : Nat) (rem : List Char), 2 * f.length < fuel → rem.head? ≠ some '"' →
      decodeQuoted fuel (escapeQuotes f ++ '"' :: rem) = some (f, rem) := by
  induction f with
  | nil =>
    intro fuel rem hfuel hrem
    cases fuel with
    | zero => omega
    | succ k =>
      show decodeQuoted (k + 1) ('"' :: rem) = some ([], rem)
      rw [decodeQuoted_succ_cons, if_pos rfl, if_neg hrem]
  | cons a f' ih =>
    intro fuel rem hfuel hrem
    cases fuel with
    | zero => omega
    | succ k =>
      have hk : 2 * f'.length < k := by
        simp only [List.length_cons] at hfuel
        omega
      by_cases ha : a = '"'
      · subst ha
        rw [escapeQuotes_cons, if_pos rfl, List.cons_append, List.cons_append,
          decodeQuoted_succ_cons, if_pos rfl, List.head?_cons, if_pos rfl,
          List.tail_cons, ih k rem hk hrem]
        rfl
      · rw [escapeQuotes_cons, if_neg ha, List.cons_append,
          decodeQuoted_succ_cons, if_neg ha, ih k rem hk hrem]
        rfl

theorem no_special_of_no_quote {f : List Char} (h : fieldNeedsQuote f = false) :
    ∀ c ∈ f, ¬c = ',' ∧ ¬c = '"' := by
  intro c hc
  unfold fieldNeedsQuote at h
  rw [List.any_eq_false] at h
  have hcf := h c hc
  simp only [Bool.or_eq_true, beq_iff_eq, not_or] at hcf
  exact ⟨hcf.1.1.1, hcf.1.1.2⟩

theorem takeWhile_no_comma_self (f : List Char) (hf : ∀ c ∈ f, ¬c = ',') :
    f.takeWhile (fun c => !(c == ',')) = f := by
  induction f with
  | nil => rfl
  | cons a f' ih =>
    have ha : (a == ',') = false := beq_eq_false_iff_ne.mpr (hf a (by simp))
    rw [List.takeWhile_cons, ha]
    simp only [Bool.not_false, if_true]
    rw [ih fun c hc => hf c (List.mem_cons_of_mem a hc)]

theorem takeWhile_no_comma_append (f : List Char) (hf : ∀ c ∈ f, ¬c = ',')
    (rest : List Char) :
    (f ++ ',' :: rest).takeWhile (fun c => !(c == ',')) = f := by
  induction f with
  | nil =>
    rw [List.nil_append, List.takeWhile_cons]
    simp
  | cons a f' ih =>
    have ha : (a == ',') = false := beq_eq_false_iff_ne.mpr (hf a (by simp))
    rw [List.cons_append, List.takeWhile_cons, ha]
    simp only [Bool.not_false, if_true]
    rw [ih fun c hc => hf c (List.mem_cons_of_mem a hc)]

theorem length_escapeQuotes_ge (f : List Char) : f.length ≤ (escapeQuotes f).length := by
  induction f with
  | nil => simp [escapeQuotes]
  | cons a f' ih =>
    rw [escapeQuotes_cons]
    by_cases ha : a = '"'
    · rw [if_pos ha]
      simp only [List.length_cons]
      omega
    · rw [if_neg ha]
      simp only [List.length_cons]
      omega

theorem length_encodeField_ge (f : List Char) : f.length ≤ (encodeField f).length := by
  unfold encodeField
  by_cases hq : fieldNeedsQuote f = true
  · rw [if_pos hq]
    have := length_escapeQuotes_ge f
    simp only [List.length_cons, List.length_append, List.length_singleton]
    omega
  · rw [if_neg hq]

theorem encodeRow_cons_cons (f f2 : List Char) (rest : List (List Char)) :
    encodeRow (f :: f2 :: rest) = encodeField f ++ ',' :: encodeRow (f2 :: rest) := rfl

theorem head_not_quote_of_raw {f : List Char} (hq : fieldNeedsQuote f = false)
    (x : List Char) : ¬(f ++ ',' :: x).head? = some '"' := by
  cases f with
  | nil => simp
  | cons c f' =>
    have hc := no_special_of_no_quote hq c (by simp)
    simp only [List.cons_append, List.head?_cons, Option.some.injEq]
    exact fun he => hc.2 he

theorem decodeRow_encodeRow (fs : List (List Char)) :
    ∀ fuel : Nat, fs ≠ [] → 2 * (encodeRow fs).length + 1 < fuel →
      decodeRow fuel (encodeRow fs) = some fs := by
  induction fs with
  | nil =>
    intro fuel hne _
    exact absurd rfl hne
  | cons f fs' ih =>
    intro fuel _ hfuel
    cases fuel with
    | zero => omega
    | succ k =>
      have hflen : f.length ≤ (encodeField f).length := length_encodeField_ge f
      cases fs' with
      | nil =>
        have hlen1 : (encodeRow [f]).length = (encodeField f).length := rfl
        by_cases hq : fieldNeedsQuote f = true
        · have henc : encodeField f = '"' :: (escapeQuotes f ++ ['"']) := by
            unfold encodeField
            rw [if_pos hq]
          show decodeRow (k + 1) (encodeField f) = some [f]
          rw [henc, decodeRow_succ, List.head?_cons, if_pos rfl, List.tail_cons,
            decodeQuoted_escape f (k + 1) []
              (by
                have hesc := length_escapeQuotes_ge f
                rw [hlen1, henc] at hfuel
                simp only [List.length_cons, List.length_append,
                  List.length_singleton] at hfuel
                omega)
              (by simp)]
        · have hq' : fieldNeedsQuote f = false := by
            cases hqq : fieldNeedsQuote f
            · rfl
            · exact absurd hqq hq
          have henc : encodeField f = f := by
            unfold encodeField
            rw [if_neg hq]
          have hcomma : ∀ c ∈ f, ¬c = ',' := fun c hc => (no_special_of_no_quote hq' c hc).1
          show decodeRow (k + 1) (encodeField f) = some [f]
          rw [henc, decodeRow_succ]
          have hhead : ¬f.head? = some '"' := by
            cases f with
            | nil => simp
            | cons c f'' =>
              have hc := no_special_of_no_quote hq' c (by simp)
              simp only [List.head?_cons, Option.some.injEq]
              exact fun he => hc.2 he
          rw [if_neg hhead, takeWhile_no_comma_self f hcomma, List.drop_length]
      | cons f2 rest =>
        have hlen2 : (encodeRow (f :: f2 :: rest)).length
            = (encodeField f).length + 1 + (encodeRow (f2 :: rest)).length := by
          rw [encodeRow_cons_cons]
          simp only [List.length_append, List.length_cons]
          omega
        have hih : decodeRow k (encodeRow (f2 :: rest)) = some (f2 :: rest) := by
          apply ih k (by simp)
          omega
        by_cases hq : fieldNeedsQuote f = true
        · have henc : encodeField f = '"' :: (escapeQuotes f ++ ['"']) := by
            unfold encodeField
            rw [if_pos hq]
          show decodeRow (k + 1) (encodeRow (f :: f2 :: rest)) = some (f :: f2 :: rest)
          rw [encodeRow_cons_cons, henc, List.cons_append, List.append_assoc,
            List.singleton_append, decodeRow_succ, List.head?_cons, if_pos rfl,
            List.tail_cons,
            decodeQuoted_escape f (k + 1) (',' :: encodeRow (f2 :: rest))
              (by
                have h1 := hlen2
                rw [henc] at h1
                have h2 := length_escapeQuotes_ge f
                simp only [List.length_cons, List.length_append,
                  List.length_singleton] at h1
                omega)
              (by simp)]
          show (if ',' = ',' then
              (decodeRow k (encodeRow (f2 :: rest))).map fun fs => f :: fs
            else none) = some (f :: f2 :: rest)
          rw [if_pos rfl, hih]
          rfl
        · have hq' : fieldNeedsQuote f = false := by
            cases hqq : fieldNeedsQuote f
            · rfl
            · exact absurd hqq hq
          have henc : encodeField f = f := by
            unfold encodeField
            rw [if_neg hq]
          have hcomma : ∀ c ∈ f, ¬c = ',' := fun c hc => (no_special_of_no_quote hq' c hc).1
          show decodeRow (k + 1) (encodeRow (f :: f2 :: rest)) = some (f :: f2 :: rest)
          rw [encodeRow_cons_cons, henc, decodeRow_succ,
            if_neg (head_not_quote_of_raw hq' (encodeRow (f2 :: rest))),
            takeWhile_no_comma_append f hcomma (encodeRow (f2 :: rest)),
            List.drop_left]
          show (decodeRow k (encodeRow (f2 :: rest))).map (fun fs => f :: fs)
              = some (f :: f2 :: rest)
          rw [hih]
          rfl

/-- C7 counterexample: the Decomposer can produce a record whose sender is
PRESENT but empty (header remainder ": hello"), and that record does not
survive the round trip: its sender comes back absent, because the empty
table cell maps to the absent sender.  The empty-string/absent
correspondence is therefore not a bijection on all reachable records. -/
theorem c7_counterexample :
    split_sender_and_text (": hello".toList) = (some [], "hello".toList)
    ∧ readMessageLine (writeMessageLine
        ⟨"24/07/2025".toList, "11:22".toList, some [], "hello".toList⟩)
        = some ⟨"24/07/2025".toList, "11:22".toList, none, "hello".toList⟩
    ∧ readMessageLine (writeMessageLine
        ⟨"24/07/2025".toList, "11:22".toList, some [], "hello".toList⟩)
        ≠ some ⟨"24/07/2025".toList, "11:22".toList, some [], "hello".toList⟩ := by
  decide

/-- C7 amended: for every `ParsedMessage` whose sender is not the
present-but-empty string, serializing the record to its messages-table row
and re-reading it preserves date, time, sender and message content
byte-for-byte, with the empty sender cell standing for the absent sender; a
record with a present-but-empty sender is the one exception, read back with
an absent sender. -/
theorem c7_amended_roundtrip (r : ParsedMessage) (h : r.sender ≠ some []) :
    readMessageLine (writeMessageLine r) = some r := by
  obtain ⟨d, t, sd, msg⟩ := r
  have hrow : write_messages_row ⟨d, t, sd, msg⟩ = [d, t, senderField sd, msg] := rfl
  have hne : write_messages_row ⟨d, t, sd, msg⟩ ≠ [] := by
    rw [hrow]
    simp
  unfold readMessageLine writeMessageLine
  rw [decodeRow_encodeRow (write_messages_row ⟨d, t, sd, msg⟩)
    (2 * (encodeRow (write_messages_row ⟨d, t, sd, msg⟩)).length + 2) hne (by omega)]
  rw [hrow]
  cases sd with
  | none => rfl
  | some s =>
    have hs : s ≠ [] := by
      intro he
      exact h (by rw [he])
    show (some (⟨d, t, if s = [] then none else some s, msg⟩ : ParsedMessage)
        : Option ParsedMessage) = some ⟨d, t, some s, msg⟩
    rw [if_neg hs]

/-- Witness for C7 amended at a record with a comma, quotes and an internal
newline in its message. -/
theorem c7_amended_roundtrip_witness :
    ((⟨"24/07/2025".toList, "11:22".toList, some "Ana".toList,
        "Oi, \"tudo\" bem?\nSim".toList⟩ : ParsedMessage).sender ≠ some [])
    ∧ readMessageLine (writeMessageLine
        ⟨"24/07/2025".toList, "11:22".toList, some "Ana".toList,
          "Oi, \"tudo\" bem?\nSim".toList⟩)
        = some ⟨"24/07/2025".toList, "11:22".toList, some "Ana".toList,
            "Oi, \"tudo\" bem?\nSim".toList⟩ :=
  ⟨by decide,
    c7_amended_roundtrip
      ⟨"24/07/2025".toList, "11:22".toList, some "Ana".toList,
        "Oi, \"tudo\" bem?\nSim".toList⟩ (by decide)⟩
